import Mathlib

/-!
Formal model of the NFC URL writer (`nfc_writer.py`): the URI abbreviation
codec, NDEF URI record construction, TLV framing and 4-byte padding, the
APDU transport layer with its page-write session, and the card-connection
retry loop of `main`.  Strings are modelled as `List Char` (Python `str`),
byte sequences as `List Nat` (Python lists of ints, which the source uses
throughout; values are not reduced mod 256, exactly as in the source).
-/

/-- URI identifier codes (NFC Forum), in the fixed iteration order of the
Python dict `URI_IDENTIFIERS` (insertion order). -/
def URI_IDENTIFIERS : List (List Char × Nat) :=
  [("http://www.".toList, 0x01),
   ("https://www.".toList, 0x02),
   ("http://".toList, 0x03),
   ("https://".toList, 0x04),
   ("tel:".toList, 0x05),
   ("mailto:".toList, 0x06),
   ("ftp://".toList, 0x0D)]

/-- The loop `for prefix, code in URI_IDENTIFIERS.items(): if
url.lower().startswith(prefix): ... break`: returns the first table entry
whose prefix case-insensitively matches the start of `url`. -/
def firstMatch : List (List Char × Nat) → List Char → Option (List Char × Nat)
  | [], _ => none
  | pc :: rest, url =>
    if (url.map Char.toLower).take pc.1.length = pc.1 then some pc
    else firstMatch rest url

/-- Lines 86-94 of `create_ndef_uri`: the selected code and the remainder
`url[len(prefix):]`; code `0x00` and the whole string when nothing matches. -/
def encodeUri (url : List Char) : Nat × List Char :=
  match firstMatch URI_IDENTIFIERS url with
  | some (p, c) => (c, url.drop p.length)
  | none => (0x00, url)

/-- UTF-8 encoding of one character (Python `str.encode` on one code point). -/
def utf8Char (c : Char) : List Nat :=
  let n := c.toNat
  if n < 0x80 then [n]
  else if n < 0x800 then [0xC0 + n / 64, 0x80 + n % 64]
  else if n < 0x10000 then
    [0xE0 + n / 4096, 0x80 + n / 64 % 64, 0x80 + n % 64]
  else
    [0xF0 + n / 262144, 0x80 + n / 4096 % 64, 0x80 + n / 64 % 64, 0x80 + n % 64]

/-- UTF-8 encoding of a string (`uri_data.encode('utf-8')`). -/
def utf8 (s : List Char) : List Nat := (s.map utf8Char).flatten

/-- Line 97: `uri_bytes = [uri_code] + list(uri_data.encode('utf-8'))`. -/
def uriBytes (url : List Char) : List Nat :=
  (encodeUri url).1 :: utf8 (encodeUri url).2

/-- Lines 122-125: the TLV block around an NDEF record; 1-byte length when
`ndef_len < 0xFF`, else `0xFF` marker plus big-endian 16-bit length
(`(ndef_len >> 8) & 0xFF`, `ndef_len & 0xFF`), then the `0xFE` terminator. -/
def tlvFrame (record : List Nat) : List Nat :=
  if record.length < 0xFF then
    [0x03, record.length] ++ record ++ [0xFE]
  else
    [0x03, 0xFF, record.length / 256 % 256, record.length % 256] ++ record ++ [0xFE]

/-- Lines 97-127, `create_ndef_uri`: NDEF record header `0xD1`, type length
`0x01`, payload length, type `0x55`, payload, wrapped in the TLV block. -/
def create_ndef_uri (url : List Char) : List Nat :=
  tlvFrame ([0xD1, 0x01, (uriBytes url).length, 0x55] ++ uriBytes url)

/-- Lines 148-149 of `write_url`: `while len(ndef_data) % 4 != 0:
ndef_data.append(0x00)`, as a closed form. -/
def padTo4 (buf : List Nat) : List Nat :=
  buf ++ List.replicate ((4 - buf.length % 4) % 4) 0

/-- Modelled from the spec: the repository implements no decoder (decoding
tag contents is a stated non-goal), but the round-trip property of spec
section 8 defines one.  `prefixOfCode` maps an abbreviation code byte back
to its prefix string; code `0x00` means no prefix. -/
def prefixOfCode (code : Nat) : Option (List Char) :=
  if code = 0 then some []
  else (URI_IDENTIFIERS.find? (fun pc => pc.2 == code)).map (fun pc => pc.1)

/-- Modelled from the spec: UTF-8 decoding of a byte sequence, inverse of
`utf8`; fails on malformed sequences. -/
def utf8Decode : List Nat → Option (List Char)
  | [] => some []
  | b :: bs =>
    if b < 0x80 then
      (utf8Decode bs).map (fun s => Char.ofNat b :: s)
    else if b < 0xC0 then none
    else if b < 0xE0 then
      match bs with
      | b2 :: bs2 =>
        if 0x80 ≤ b2 ∧ b2 < 0xC0 then
          (utf8Decode bs2).map (fun s => Char.ofNat ((b - 0xC0) * 64 + (b2 - 0x80)) :: s)
        else none
      | [] => none
    else if b < 0xF0 then
      match bs with
      | b2 :: b3 :: bs2 =>
        if (0x80 ≤ b2 ∧ b2 < 0xC0) ∧ (0x80 ≤ b3 ∧ b3 < 0xC0) then
          (utf8Decode bs2).map
            (fun s => Char.ofNat ((b - 0xE0) * 4096 + (b2 - 0x80) * 64 + (b3 - 0x80)) :: s)
        else none
      | _ => none
    else if b < 0xF8 then
      match bs with
      | b2 :: b3 :: b4 :: bs2 =>
        if (0x80 ≤ b2 ∧ b2 < 0xC0) ∧ (0x80 ≤ b3 ∧ b3 < 0xC0) ∧ (0x80 ≤ b4 ∧ b4 < 0xC0) then
          (utf8Decode bs2).map
            (fun s => Char.ofNat
              ((b - 0xF0) * 262144 + (b2 - 0x80) * 4096 + (b3 - 0x80) * 64 + (b4 - 0x80)) :: s)
        else none
      | _ => none
    else none

/-- Modelled from the spec: read the TLV length field (1-byte short form, or
`0xFF` marker plus big-endian 16-bit form) and extract the NDEF record,
requiring the `0xFE` terminator right after it. -/
def unframe (tlv : List Nat) : Option (List Nat) :=
  match tlv with
  | t :: l1 :: rest =>
    if t = 0x03 then
      if l1 = 0xFF then
        match rest with
        | hi :: lo :: body =>
          if body.drop (hi * 256 + lo) = [0xFE] then some (body.take (hi * 256 + lo))
          else none
        | _ => none
      else if rest.drop l1 = [0xFE] then some (rest.take l1)
      else none
    else none
  | _ => none

/-- Modelled from the spec: parse an NDEF URI record (header `0xD1`, type
length `0x01`, payload length, type `0x55`, code byte, remainder bytes) and
re-derive the URI as the prefix followed by the decoded remainder. -/
def parseRecord (r : List Nat) : Option (List Char) :=
  match r with
  | hdr :: tl :: plen :: ty :: code :: rest =>
    if hdr = 0xD1 ∧ tl = 0x01 ∧ ty = 0x55 ∧ plen = rest.length + 1 then
      match prefixOfCode code, utf8Decode rest with
      | some p, some s => some (p ++ s)
      | _, _ => none
    else none
  | _ => none

/-- Modelled from the spec: full decoding of a built TLV block back to the
URI string. -/
def decodeTlv (tlv : List Nat) : Option (List Char) :=
  (unframe tlv).bind parseRecord

/-- `NTAG216_USER_START_PAGE = 4`. -/
def NTAG216_USER_START_PAGE : Nat := 4

/-- Errors surfaced by the session (each `raise Exception(...)` site). -/
inductive Err where
  | readerNotFound : Err
  | cardTimeout : Err
  | apduFailed (sw1 sw2 : Nat) : Err
deriving DecidableEq

/-- Observable actions of one session: a command/response exchange, the
1-second sleep of the retry loop, one connection attempt, and the
`disconnect` call of the `finally` block. -/
inductive Ev where
  | connectAttempt : Ev
  | sleep1 : Ev
  | disconnectCall : Ev
  | apdu (cmd : List Nat) : Ev
deriving DecidableEq

/-- Outcome of one `connect_card` attempt: success, `NoCardException`, or
any other connection error. -/
inductive COut where
  | success : COut
  | noCard : COut
  | otherError : COut
deriving DecidableEq

/-- The external transport: maps a command APDU to (response, SW1, SW2). -/
def Transport : Type := List Nat → List Nat × Nat × Nat

/-- An exchange result with the fixed success status `0x9000`. -/
def isOk (r : List Nat × Nat × Nat) : Prop := r.2.1 = 0x90 ∧ r.2.2 = 0x00

/-- A transport on which every exchange succeeds. -/
def okTransport : Transport := fun _ => ([], 0x90, 0x00)

/-- Lines 58-63, `send_apdu`: transmit, fail when the status differs from
`0x9000`, preserving the literal SW1/SW2 values in the error. -/
def send_apdu (tr : Transport) (cmd : List Nat) : List Ev × Except Err (List Nat) :=
  match tr cmd with
  | (response, sw1, sw2) =>
    if sw1 ≠ 0x90 ∨ sw2 ≠ 0x00 then
      ([Ev.apdu cmd], Except.error (Err.apduFailed sw1 sw2))
    else ([Ev.apdu cmd], Except.ok response)

/-- Lines 65-70, `write_page`: the command APDU
`[0xFF, 0xD6, 0x00, page, 0x04] + data[:4]` with `data` zero-padded to four
bytes first. -/
def wpApdu (page : Nat) (data : List Nat) : List Nat :=
  let d := if data.length ≠ 4 then data ++ List.replicate (4 - data.length) 0 else data
  [0xFF, 0xD6, 0x00, page, 0x04] ++ d.take 4

/-- Lines 65-70, `write_page`: send the page-write APDU. -/
def write_page (tr : Transport) (page : Nat) (data : List Nat) : List Ev × Except Err Unit :=
  match send_apdu tr (wpApdu page data) with
  | (t, Except.ok _) => (t, Except.ok ())
  | (t, Except.error e) => (t, Except.error e)

/-- The `get_uid` command APDU `[0xFF, 0xCA, 0x00, 0x00, 0x00]`. -/
def uidApdu : List Nat := [0xFF, 0xCA, 0x00, 0x00, 0x00]

/-- Lines 72-75, `get_uid`. -/
def get_uid (tr : Transport) : List Ev × Except Err (List Nat) :=
  send_apdu tr uidApdu

/-- The fixed capability-container bytes written to page 3. -/
def ccBytes : List Nat := [0xE1, 0x10, 0x6D, 0x00]

/-- Lines 164-168 of `write_url`: `for i in range(0, len(ndef_data), 4)`,
writing each 4-byte chunk to the next page; an exchange failure propagates
out of the loop at once. -/
def writePages (tr : Transport) : List Nat → Nat → List Ev × Except Err Unit
  | [], _ => ([], Except.ok ())
  | a :: b :: c :: d :: rest, page =>
    match write_page tr page [a, b, c, d] with
    | (t, Except.ok _) =>
      let r := writePages tr rest (page + 1)
      (t ++ r.1, r.2)
    | (t, Except.error e) => (t, Except.error e)
  | [a], page => write_page tr page [a]
  | [a, b], page => write_page tr page [a, b]
  | [a, b, c], page => write_page tr page [a, b, c]

/-- Lines 129-170, `write_url`: read the UID, build and pad the NDEF TLV,
write the capability container to page 3, then write the data pages from
page 4 upward. -/
def write_url (tr : Transport) (url : List Char) : List Ev × Except Err Unit :=
  match get_uid tr with
  | (t1, Except.error e) => (t1, Except.error e)
  | (t1, Except.ok _) =>
    match write_page tr 3 ccBytes with
    | (t2, Except.error e) => (t1 ++ t2, Except.error e)
    | (t2, Except.ok _) =>
      let r := writePages tr (padTo4 (create_ndef_uri url)) NTAG216_USER_START_PAGE
      (t1 ++ t2 ++ r.1, r.2)

/-- Lines 199-205 of `main`: the `for _ in range(30)` retry loop; `f i` is
the outcome of attempt `i` of `connect_card`; a bare `except:` catches every
failure, prints a dot and sleeps one second before the next attempt. -/
def connectLoopAux (f : Nat → COut) (i : Nat) : Nat → List Ev × Bool
  | 0 => ([], false)
  | fuel + 1 =>
    if f i = COut.success then ([Ev.connectAttempt], true)
    else
      let r := connectLoopAux f (i + 1) fuel
      (Ev.connectAttempt :: Ev.sleep1 :: r.1, r.2)

/-- The whole retry loop: 30 attempts starting at attempt 0. -/
def connectLoop (f : Nat → COut) : List Ev × Bool := connectLoopAux f 0 30

/-- Lines 195-226 of `main` from `find_reader` onward: on reader failure or
card timeout the typed error surfaces (the `except` block exits with status
1), and the `finally` block calls `disconnect` exactly once on every path. -/
def mainRun (readerOk : Bool) (f : Nat → COut) (tr : Transport) (url : List Char) :
    List Ev × Except Err Unit :=
  if readerOk then
    match connectLoop f with
    | (t, true) =>
      let r := write_url tr url
      (t ++ r.1 ++ [Ev.disconnectCall], r.2)
    | (t, false) => (t ++ [Ev.disconnectCall], Except.error Err.cardTimeout)
  else ([Ev.disconnectCall], Except.error Err.readerNotFound)

/-- A 255-character URL matching no abbreviation; its encoded payload is
256 bytes, one more than a short record can carry. -/
def oversizeUrl : List Char := List.replicate 255 'a'

/-! ### Helper lemmas -/

theorem firstMatch_split : ∀ (l : List (List Char × Nat)) (url : List Char)
    (pc : List Char × Nat), firstMatch l url = some pc →
    (url.map Char.toLower).take pc.1.length = pc.1 ∧
    ∃ l1 l2, l = l1 ++ pc :: l2 ∧
      ∀ q ∈ l1, (url.map Char.toLower).take q.1.length ≠ q.1 := by
  intro l
  induction l with
  | nil => intro url pc h; cases h
  | cons hd tl ih =>
    intro url pc h
    rw [firstMatch] at h
    by_cases hc : (url.map Char.toLower).take hd.1.length = hd.1
    · rw [if_pos hc] at h
      cases h
      exact ⟨hc, [], tl, rfl, by simp⟩
    · rw [if_neg hc] at h
      obtain ⟨hm, l1, l2, heq, hall⟩ := ih url pc h
      refine ⟨hm, hd :: l1, l2, by simp [heq], ?_⟩
      intro q hq
      rcases List.mem_cons.mp hq with rfl | hq
      · exact hc
      · exact hall q hq

theorem firstMatch_none_nomatch : ∀ (l : List (List Char × Nat)) (url : List Char),
    firstMatch l url = none →
    ∀ q ∈ l, (url.map Char.toLower).take q.1.length ≠ q.1 := by
  intro l
  induction l with
  | nil => intro url _ q hq; cases hq
  | cons hd tl ih =>
    intro url h q hq
    rw [firstMatch] at h
    by_cases hc : (url.map Char.toLower).take hd.1.length = hd.1
    · rw [if_pos hc] at h; cases h
    · rw [if_neg hc] at h
      rcases List.mem_cons.mp hq with rfl | hq
      · exact hc
      · exact ih url h q hq

theorem char_toNat_lt (c : Char) : c.toNat < 1114112 := by
  have h : c.toNat < 0xd800 ∨ (0xdfff < c.toNat ∧ c.toNat < 0x110000) := c.valid
  omega

theorem utf8Decode_cons (b : Nat) (bs : List Nat) :
    utf8Decode (b :: bs) =
      (if b < 0x80 then
        (utf8Decode bs).map (fun s => Char.ofNat b :: s)
      else if b < 0xC0 then none
      else if b < 0xE0 then
        match bs with
        | b2 :: bs2 =>
          if 0x80 ≤ b2 ∧ b2 < 0xC0 then
            (utf8Decode bs2).map (fun s => Char.ofNat ((b - 0xC0) * 64 + (b2 - 0x80)) :: s)
          else none
        | [] => none
      else if b < 0xF0 then
        match bs with
        | b2 :: b3 :: bs2 =>
          if (0x80 ≤ b2 ∧ b2 < 0xC0) ∧ (0x80 ≤ b3 ∧ b3 < 0xC0) then
            (utf8Decode bs2).map
              (fun s => Char.ofNat ((b - 0xE0) * 4096 + (b2 - 0x80) * 64 + (b3 - 0x80)) :: s)
          else none
        | _ => none
      else if b < 0xF8 then
        match bs with
        | b2 :: b3 :: b4 :: bs2 =>
          if (0x80 ≤ b2 ∧ b2 < 0xC0) ∧ (0x80 ≤ b3 ∧ b3 < 0xC0) ∧ (0x80 ≤ b4 ∧ b4 < 0xC0) then
            (utf8Decode bs2).map
              (fun s => Char.ofNat
                ((b - 0xF0) * 262144 + (b2 - 0x80) * 4096 + (b3 - 0x80) * 64 + (b4 - 0x80)) :: s)
          else none
        | _ => none
      else none) := by
  cases bs with
  | nil => rfl
  | cons b2 bs2 =>
    cases bs2 with
    | nil => rfl
    | cons b3 bs3 =>
      cases bs3 with
      | nil => rfl
      | cons b4 bs4 => rfl

theorem utf8Decode_utf8Char (c : Char) (bs : List Nat) :
    utf8Decode (utf8Char c ++ bs) = (utf8Decode bs).map (fun s => c :: s) := by
  have hlt : c.toNat < 1114112 := char_toNat_lt c
  have hofNat : Char.ofNat c.toNat = c := Char.ofNat_toNat c
  simp only [utf8Char]
  by_cases h1 : c.toNat < 0x80
  · simp only [if_pos h1, List.cons_append, List.nil_append]
    rw [utf8Decode_cons, if_pos h1, hofNat]
  · by_cases h2 : c.toNat < 0x800
    · simp only [if_neg h1, if_pos h2, List.cons_append, List.nil_append]
      rw [utf8Decode_cons]
      have hA : ¬ (0xC0 + c.toNat / 64 < 0x80) := by omega
      have hB : ¬ (0xC0 + c.toNat / 64 < 0xC0) := by omega
      have hC : 0xC0 + c.toNat / 64 < 0xE0 := by omega
      rw [if_neg hA, if_neg hB, if_pos hC]
      suffices hs : (if 0x80 ≤ 0x80 + c.toNat % 64 ∧ 0x80 + c.toNat % 64 < 0xC0 then
          (utf8Decode bs).map
            (fun s => Char.ofNat
              ((0xC0 + c.toNat / 64 - 0xC0) * 64 + (0x80 + c.toNat % 64 - 0x80)) :: s)
        else none) = (utf8Decode bs).map (fun s => c :: s) from hs
      have hD : 0x80 ≤ 0x80 + c.toNat % 64 ∧ 0x80 + c.toNat % 64 < 0xC0 := by omega
      have harith : (0xC0 + c.toNat / 64 - 0xC0) * 64 + (0x80 + c.toNat % 64 - 0x80)
          = c.toNat := by omega
      rw [if_pos hD, harith, hofNat]
    · by_cases h3 : c.toNat < 0x10000
      · simp only [if_neg h1, if_neg h2, if_pos h3, List.cons_append, List.nil_append]
        rw [utf8Decode_cons]
        have hA : ¬ (0xE0 + c.toNat / 4096 < 0x80) := by omega
        have hB : ¬ (0xE0 + c.toNat / 4096 < 0xC0) := by omega
        have hC : ¬ (0xE0 + c.toNat / 4096 < 0xE0) := by omega
        have hD : 0xE0 + c.toNat / 4096 < 0xF0 := by omega
        rw [if_neg hA, if_neg hB, if_neg hC, if_pos hD]
        suffices hs : (if (0x80 ≤ 0x80 + c.toNat / 64 % 64 ∧ 0x80 + c.toNat / 64 % 64 < 0xC0)
              ∧ (0x80 ≤ 0x80 + c.toNat % 64 ∧ 0x80 + c.toNat % 64 < 0xC0) then
            (utf8Decode bs).map
              (fun s => Char.ofNat
                ((0xE0 + c.toNat / 4096 - 0xE0) * 4096 + (0x80 + c.toNat / 64 % 64 - 0x80) * 64
                  + (0x80 + c.toNat % 64 - 0x80)) :: s)
          else none) = (utf8Decode bs).map (fun s => c :: s) from hs
        have hE : (0x80 ≤ 0x80 + c.toNat / 64 % 64 ∧ 0x80 + c.toNat / 64 % 64 < 0xC0)
            ∧ (0x80 ≤ 0x80 + c.toNat % 64 ∧ 0x80 + c.toNat % 64 < 0xC0) := by omega
        have harith : (0xE0 + c.toNat / 4096 - 0xE0) * 4096
            + (0x80 + c.toNat / 64 % 64 - 0x80) * 64 + (0x80 + c.toNat % 64 - 0x80)
            = c.toNat := by omega
        rw [if_pos hE, harith, hofNat]
      · simp only [if_neg h1, if_neg h2, if_neg h3, List.cons_append, List.nil_append]
        rw [utf8Decode_cons]
        have hA : ¬ (0xF0 + c.toNat / 262144 < 0x80) := by omega
        have hB : ¬ (0xF0 + c.toNat / 262144 < 0xC0) := by omega
        have hC : ¬ (0xF0 + c.toNat / 262144 < 0xE0) := by omega
        have hD : ¬ (0xF0 + c.toNat / 262144 < 0xF0) := by omega
        have hE : 0xF0 + c.toNat / 262144 < 0xF8 := by omega
        rw [if_neg hA, if_neg hB, if_neg hC, if_neg hD, if_pos hE]
        suffices hs : (if (0x80 ≤ 0x80 + c.toNat / 4096 % 64 ∧ 0x80 + c.toNat / 4096 % 64 < 0xC0)
              ∧ (0x80 ≤ 0x80 + c.toNat / 64 % 64 ∧ 0x80 + c.toNat / 64 % 64 < 0xC0)
              ∧ (0x80 ≤ 0x80 + c.toNat % 64 ∧ 0x80 + c.toNat % 64 < 0xC0) then
            (utf8Decode bs).map
              (fun s => Char.ofNat
                ((0xF0 + c.toNat / 262144 - 0xF0) * 262144
                  + (0x80 + c.toNat / 4096 % 64 - 0x80) * 4096
                  + (0x80 + c.toNat / 64 % 64 - 0x80) * 64 + (0x80 + c.toNat % 64 - 0x80)) :: s)
          else none) = (utf8Decode bs).map (fun s => c :: s) from hs
        have hF : (0x80 ≤ 0x80 + c.toNat / 4096 % 64 ∧ 0x80 + c.toNat / 4096 % 64 < 0xC0)
            ∧ (0x80 ≤ 0x80 + c.toNat / 64 % 64 ∧ 0x80 + c.toNat / 64 % 64 < 0xC0)
            ∧ (0x80 ≤ 0x80 + c.toNat % 64 ∧ 0x80 + c.toNat % 64 < 0xC0) := by omega
        have harith : (0xF0 + c.toNat / 262144 - 0xF0) * 262144
            + (0x80 + c.toNat / 4096 % 64 - 0x80) * 4096
            + (0x80 + c.toNat / 64 % 64 - 0x80) * 64 + (0x80 + c.toNat % 64 - 0x80)
            = c.toNat := by omega
        rw [if_pos hF, harith, hofNat]

theorem utf8Decode_utf8 (s : List Char) : utf8Decode (utf8 s) = some s := by
  induction s with
  | nil => rfl
  | cons c s ih =>
    have hu : utf8 (c :: s) = utf8Char c ++ utf8 s := by simp [utf8]
    rw [hu, utf8Decode_utf8Char, ih]
    rfl

theorem unframe_cons (t l1 : Nat) (rest : List Nat) :
    unframe (t :: l1 :: rest) =
      (if t = 0x03 then
        if l1 = 0xFF then
          match rest with
          | hi :: lo :: body =>
            if body.drop (hi * 256 + lo) = [0xFE] then some (body.take (hi * 256 + lo))
            else none
          | _ => none
        else if rest.drop l1 = [0xFE] then some (rest.take l1)
        else none
      else none) := by
  cases rest with
  | nil => rfl
  | cons x xs =>
    cases xs with
    | nil => rfl
    | cons y ys => rfl

theorem unframe_tlvFrame (r : List Nat) (h : r.length < 65536) :
    unframe (tlvFrame r) = some r := by
  rw [tlvFrame]
  by_cases h1 : r.length < 0xFF
  · rw [if_pos h1]
    simp only [List.cons_append, List.nil_append]
    rw [unframe_cons]
    have hne : ¬ (r.length = 0xFF) := by omega
    rw [if_pos rfl, if_neg hne, List.drop_left, List.take_left, if_pos rfl]
  · rw [if_neg h1]
    simp only [List.cons_append, List.nil_append]
    rw [unframe_cons]
    rw [if_pos rfl, if_pos rfl]
    suffices hs : (if (r ++ [0xFE]).drop (r.length / 256 % 256 * 256 + r.length % 256) = [0xFE]
        then some ((r ++ [0xFE]).take (r.length / 256 % 256 * 256 + r.length % 256))
        else none) = some r from hs
    have hlen : r.length / 256 % 256 * 256 + r.length % 256 = r.length := by omega
    rw [hlen, List.drop_left, List.take_left, if_pos rfl]

theorem decodeTlv_build (code : Nat) (data : List Char) (p : List Char)
    (hp : prefixOfCode code = some p) (hlen : (utf8 data).length ≤ 254) :
    decodeTlv (tlvFrame ([0xD1, 0x01, (code :: utf8 data).length, 0x55] ++ (code :: utf8 data)))
      = some (p ++ data) := by
  have hrec : ([0xD1, 0x01, (code :: utf8 data).length, 0x55] ++ (code :: utf8 data)).length
      < 65536 := by
    simp only [List.length_append, List.length_cons, List.length_nil]
    omega
  rw [decodeTlv, unframe_tlvFrame _ hrec]
  simp only [Option.some_bind, List.cons_append, List.nil_append]
  rw [parseRecord]
  have hcond : (0xD1 : Nat) = 0xD1 ∧ (0x01 : Nat) = 0x01 ∧ (0x55 : Nat) = 0x55 ∧
      (code :: utf8 data).length = (utf8 data).length + 1 := by
    simp
  rw [if_pos hcond, hp, utf8Decode_utf8]

theorem prefixOfCode_of_mem (p : List Char) (c : Nat) (hmem : (p, c) ∈ URI_IDENTIFIERS) :
    prefixOfCode c = some p := by
  simp only [URI_IDENTIFIERS, List.mem_cons, List.not_mem_nil, or_false,
    Prod.mk.injEq] at hmem
  rcases hmem with ⟨rfl, rfl⟩ | ⟨rfl, rfl⟩ | ⟨rfl, rfl⟩ | ⟨rfl, rfl⟩ | ⟨rfl, rfl⟩ |
    ⟨rfl, rfl⟩ | ⟨rfl, rfl⟩ <;> decide

/-- C2 counterexample: the claim fails as stated.  For the input
"HTTPS://a" (encoded payload 2 bytes, well within 255) the abbreviation
match is case-insensitive, so decoding the built TLV block yields the
canonical lowercase "https://a", not the original string. -/
theorem c2_case_counterexample :
    (uriBytes "HTTPS://a".toList).length ≤ 255 ∧
    decodeTlv (create_ndef_uri "HTTPS://a".toList) = some "https://a".toList ∧
    decodeTlv (create_ndef_uri "HTTPS://a".toList) ≠ some "HTTPS://a".toList :=
  ⟨by decide, by decide, by decide⟩

/-- C2 (amended): for every URI whose encoded payload is at most 255 bytes
and whose matched abbreviation prefix (when one matches) occurs in the URI
exactly in the lowercase spelling of the table, decoding the built TLV block
reproduces the exact original URI string. -/
theorem c2_roundtrip_exact (url : List Char)
    (hlen : (uriBytes url).length ≤ 255)
    (hexact : ∀ p c, firstMatch URI_IDENTIFIERS url = some (p, c) → url.take p.length = p) :
    decodeTlv (create_ndef_uri url) = some url := by
  rw [create_ndef_uri]
  cases hfm : firstMatch URI_IDENTIFIERS url with
  | none =>
    have he : encodeUri url = (0, url) := by rw [encodeUri, hfm]
    have hub : uriBytes url = 0 :: utf8 url := by rw [uriBytes, he]
    rw [hub] at hlen ⊢
    have hb : (utf8 url).length ≤ 254 := by
      simp only [List.length_cons] at hlen
      omega
    have h0 : prefixOfCode 0 = some [] := by decide
    have hdec := decodeTlv_build 0 url [] h0 hb
    simpa using hdec
  | some pc =>
    obtain ⟨p, c⟩ := pc
    have he : encodeUri url = (c, url.drop p.length) := by rw [encodeUri, hfm]
    have hub : uriBytes url = c :: utf8 (url.drop p.length) := by rw [uriBytes, he]
    obtain ⟨hm, l1, l2, heq, hall⟩ := firstMatch_split URI_IDENTIFIERS url (p, c) hfm
    have hmem : (p, c) ∈ URI_IDENTIFIERS := by rw [heq]; simp
    have hp : prefixOfCode c = some p := prefixOfCode_of_mem p c hmem
    have htake : url.take p.length = p := hexact p c hfm
    rw [hub] at hlen ⊢
    have hb : (utf8 (url.drop p.length)).length ≤ 254 := by
      simp only [List.length_cons] at hlen
      omega
    rw [decodeTlv_build c (url.drop p.length) p hp hb]
    congr 1
    conv_rhs => rw [← List.take_append_drop p.length url]
    rw [htake]

/-- C2 witness: the amended round trip at the concrete lowercase input
"https://example.com". -/
theorem c2_roundtrip_exact_witness :
    decodeTlv (create_ndef_uri "https://example.com".toList)
      = some "https://example.com".toList :=
  c2_roundtrip_exact "https://example.com".toList (by decide)
    (by
      intro p c h
      have he : firstMatch URI_IDENTIFIERS "https://example.com".toList
          = some ("https://".toList, 0x04) := by decide
      rw [he] at h
      obtain ⟨rfl, rfl⟩ := Prod.mk.inj (Option.some.inj h)
      decide)

/-- C3: the abbreviation table is scanned in its fixed priority order and
the first case-insensitive prefix match wins; no earlier table prefix is a
textual prefix of a later one (so the most specific mapping is never
shadowed); the remainder is the input with exactly the matched prefix
length removed; and with no match the code is 0x00 and the remainder is
the whole URI, unmodified. -/
theorem c3_encode_priority :
    (∀ j, j < URI_IDENTIFIERS.length → ∀ i, i < j →
      (URI_IDENTIFIERS.getD j ([], 0)).1.take (URI_IDENTIFIERS.getD i ([], 0)).1.length
        ≠ (URI_IDENTIFIERS.getD i ([], 0)).1) ∧
    (∀ (url p : List Char) (c : Nat), firstMatch URI_IDENTIFIERS url = some (p, c) →
      encodeUri url = (c, url.drop p.length) ∧
      (url.map Char.toLower).take p.length = p ∧
      url.take p.length ++ url.drop p.length = url ∧
      ∃ l1 l2, URI_IDENTIFIERS = l1 ++ (p, c) :: l2 ∧
        ∀ q ∈ l1, (url.map Char.toLower).take q.1.length ≠ q.1) ∧
    (∀ url : List Char, firstMatch URI_IDENTIFIERS url = none →
      encodeUri url = (0x00, url) ∧
      ∀ q ∈ URI_IDENTIFIERS, (url.map Char.toLower).take q.1.length ≠ q.1) := by
  refine ⟨by decide, ?_, ?_⟩
  · intro url p c h
    obtain ⟨hm, l1, l2, heq, hall⟩ := firstMatch_split URI_IDENTIFIERS url (p, c) h
    exact ⟨by rw [encodeUri, h], hm, List.take_append_drop p.length url, l1, l2, heq, hall⟩
  · intro url h
    exact ⟨by rw [encodeUri, h], firstMatch_none_nomatch URI_IDENTIFIERS url h⟩

/-- C3 witness: the first-match behaviour at the concrete input
"tel:123". -/
theorem c3_encode_priority_witness :
    encodeUri "tel:123".toList = (0x05, "tel:123".toList.drop "tel:".toList.length) ∧
    ("tel:123".toList.map Char.toLower).take "tel:".toList.length = "tel:".toList ∧
    "tel:123".toList.take "tel:".toList.length
      ++ "tel:123".toList.drop "tel:".toList.length = "tel:123".toList ∧
    ∃ l1 l2, URI_IDENTIFIERS = l1 ++ ("tel:".toList, 0x05) :: l2 ∧
      ∀ q ∈ l1, ("tel:123".toList.map Char.toLower).take q.1.length ≠ q.1 :=
  c3_encode_priority.2.1 "tel:123".toList "tel:".toList 0x05 (by decide)

/-- C4: the five concrete encodings listed in the spec. -/
theorem c4_encode_examples :
    encodeUri "https://www.example.com".toList = (0x02, "example.com".toList) ∧
    encodeUri "https://example.com".toList = (0x04, "example.com".toList) ∧
    encodeUri "ftp://x".toList = (0x0D, "x".toList) ∧
    encodeUri "mailto:a@b.com".toList = (0x06, "a@b.com".toList) ∧
    encodeUri "example.com".toList = (0x00, "example.com".toList) := by
  refine ⟨by decide, by decide, by decide, by decide, by decide⟩

/-- C5: the TLV frame is `[0x03, len] ++ record ++ [0xFE]` for records
shorter than 255 bytes and `[0x03, 0xFF, hi, lo] ++ record ++ [0xFE]` with
the big-endian 16-bit length otherwise; the padded buffer length is a
multiple of 4, the last byte of the frame is the `0xFE` terminator, and
everything appended after the frame is zero padding. -/
theorem c5_tlv_frame_and_padding (r : List Nat) :
    tlvFrame r = (if r.length < 255 then [0x03, r.length] ++ r ++ [0xFE]
      else [0x03, 0xFF, r.length / 256 % 256, r.length % 256] ++ r ++ [0xFE]) ∧
    (padTo4 (tlvFrame r)).length % 4 = 0 ∧
    (tlvFrame r).getLast? = some 0xFE ∧
    ∃ k, padTo4 (tlvFrame r) = tlvFrame r ++ List.replicate k 0 := by
  refine ⟨rfl, ?_, ?_, ⟨(4 - (tlvFrame r).length % 4) % 4, rfl⟩⟩
  · simp only [padTo4, List.length_append, List.length_replicate]
    omega
  · rw [tlvFrame]
    split
    · exact List.getLast?_concat _
    · exact List.getLast?_concat _

theorem send_apdu_ok {tr : Transport} {cmd : List Nat} (h : isOk (tr cmd)) :
    send_apdu tr cmd = ([Ev.apdu cmd], Except.ok (tr cmd).1) := by
  obtain ⟨h1, h2⟩ := h
  rcases htr : tr cmd with ⟨resp, sw1, sw2⟩
  rw [htr] at h1 h2
  simp only at h1 h2
  subst h1; subst h2
  rw [send_apdu, htr]
  rfl

theorem send_apdu_err {tr : Transport} {cmd resp : List Nat} {a b : Nat}
    (htr : tr cmd = (resp, a, b)) (hf : ¬ (a = 0x90 ∧ b = 0x00)) :
    send_apdu tr cmd = ([Ev.apdu cmd], Except.error (Err.apduFailed a b)) := by
  have hc : a ≠ 0x90 ∨ b ≠ 0x00 := by tauto
  rw [send_apdu, htr]
  suffices hs : (if a ≠ 0x90 ∨ b ≠ 0x00 then
      ([Ev.apdu cmd], Except.error (Err.apduFailed a b))
    else ([Ev.apdu cmd], Except.ok resp))
      = ([Ev.apdu cmd], Except.error (Err.apduFailed a b)) from hs
  rw [if_pos hc]

theorem write_page_ok {tr : Transport} {page : Nat} {data : List Nat}
    (h : isOk (tr (wpApdu page data))) :
    write_page tr page data = ([Ev.apdu (wpApdu page data)], Except.ok ()) := by
  rw [write_page, send_apdu_ok h]

theorem write_page_err {tr : Transport} {page : Nat} {data resp : List Nat} {a b : Nat}
    (htr : tr (wpApdu page data) = (resp, a, b)) (hf : ¬ (a = 0x90 ∧ b = 0x00)) :
    write_page tr page data
      = ([Ev.apdu (wpApdu page data)], Except.error (Err.apduFailed a b)) := by
  rw [write_page, send_apdu_err htr hf]

theorem writePages_cons4_ok {tr : Transport} {page a b c d : Nat} (rest : List Nat)
    (h : isOk (tr (wpApdu page [a, b, c, d]))) :
    writePages tr (a :: b :: c :: d :: rest) page =
      (Ev.apdu (wpApdu page [a, b, c, d]) :: (writePages tr rest (page + 1)).1,
       (writePages tr rest (page + 1)).2) := by
  rw [writePages, write_page_ok h]
  rfl

theorem writePages_cons4_err {tr : Transport} {page a b c d s1 s2 : Nat} {resp : List Nat}
    (rest : List Nat) (htr : tr (wpApdu page [a, b, c, d]) = (resp, s1, s2))
    (hf : ¬ (s1 = 0x90 ∧ s2 = 0x00)) :
    writePages tr (a :: b :: c :: d :: rest) page =
      ([Ev.apdu (wpApdu page [a, b, c, d])], Except.error (Err.apduFailed s1 s2)) := by
  rw [writePages, write_page_err htr hf]

theorem map_range_succ {α : Type} (m : Nat) (f : Nat → α) :
    (List.range (m + 1)).map f = f 0 :: (List.range m).map (fun j => f (j + 1)) := by
  rw [List.range_succ_eq_map, List.map_cons, List.map_map]
  rfl

theorem map_range_congr {α : Type} : ∀ (m : Nat) (f g : Nat → α),
    (∀ j, j < m → f j = g j) → (List.range m).map f = (List.range m).map g := by
  intro m
  induction m with
  | zero => intro f g _; rfl
  | succ m ih =>
    intro f g h
    rw [List.range_succ, List.map_append, List.map_append,
      ih f g (fun j hj => h j (by omega))]
    simp [h m (by omega)]

theorem drop_four (x y z w : Nat) (rest : List Nat) (j : Nat) :
    (x :: y :: z :: w :: rest).drop (4 * (j + 1)) = rest.drop (4 * j) := by
  rw [show 4 * (j + 1) = 4 * j + 1 + 1 + 1 + 1 by ring]
  simp [List.drop_succ_cons]

theorem writePages_ok (tr : Transport) (htr : ∀ cmd, isOk (tr cmd)) :
    ∀ (N : Nat) (buf : List Nat) (page : Nat), buf.length ≤ N →
    writePages tr buf page =
      ((List.range ((buf.length + 3) / 4)).map
        (fun j => Ev.apdu (wpApdu (page + j) ((buf.drop (4 * j)).take 4))),
       Except.ok ()) := by
  intro N
  induction N with
  | zero =>
    intro buf page h
    have hb : buf = [] := List.length_eq_zero.mp (Nat.le_zero.mp h)
    subst hb
    rfl
  | succ N ih =>
    intro buf page h
    rcases buf with _ | ⟨a, _ | ⟨b, _ | ⟨c, _ | ⟨d, rest⟩⟩⟩⟩
    · rfl
    · rw [writePages, write_page_ok (htr (wpApdu page [a]))]
      have h1 : (([a] : List Nat).length + 3) / 4 = 1 := by norm_num
      rw [h1]
      rfl
    · rw [writePages, write_page_ok (htr (wpApdu page [a, b]))]
      have h1 : (([a, b] : List Nat).length + 3) / 4 = 1 := by norm_num
      rw [h1]
      rfl
    · rw [writePages, write_page_ok (htr (wpApdu page [a, b, c]))]
      have h1 : (([a, b, c] : List Nat).length + 3) / 4 = 1 := by norm_num
      rw [h1]
      rfl
    · have hlen : rest.length ≤ N := by
        simp only [List.length_cons] at h
        omega
      rw [writePages_cons4_ok rest (htr (wpApdu page [a, b, c, d])),
        ih rest (page + 1) hlen]
      have hm : ((a :: b :: c :: d :: rest).length + 3) / 4 = (rest.length + 3) / 4 + 1 := by
        simp only [List.length_cons]
        omega
      rw [hm, map_range_succ]
      congr 1
      congr 1
      apply map_range_congr
      intro j hj
      rw [drop_four, Nat.add_assoc, Nat.add_comm 1 j]

theorem writePages_err (tr : Transport) :
    ∀ (k : Nat) (buf : List Nat) (page : Nat) (resp : List Nat) (a b : Nat),
    4 * k < buf.length →
    (∀ j, j < k → isOk (tr (wpApdu (page + j) ((buf.drop (4 * j)).take 4)))) →
    tr (wpApdu (page + k) ((buf.drop (4 * k)).take 4)) = (resp, a, b) →
    ¬ (a = 0x90 ∧ b = 0x00) →
    writePages tr buf page =
      ((List.range (k + 1)).map
        (fun j => Ev.apdu (wpApdu (page + j) ((buf.drop (4 * j)).take 4))),
       Except.error (Err.apduFailed a b)) := by
  intro k
  induction k with
  | zero =>
    intro buf page resp a b hlen hok htr hf
    rcases buf with _ | ⟨x, _ | ⟨y, _ | ⟨z, _ | ⟨w, rest⟩⟩⟩⟩
    · simp at hlen
    · have hx : tr (wpApdu page [x]) = (resp, a, b) := htr
      rw [writePages, write_page_err hx hf]
      rfl
    · have hx : tr (wpApdu page [x, y]) = (resp, a, b) := htr
      rw [writePages, write_page_err hx hf]
      rfl
    · have hx : tr (wpApdu page [x, y, z]) = (resp, a, b) := htr
      rw [writePages, write_page_err hx hf]
      rfl
    · have hx : tr (wpApdu page [x, y, z, w]) = (resp, a, b) := htr
      rw [writePages_cons4_err rest hx hf]
      rfl
  | succ k ih =>
    intro buf page resp a b hlen hok htr hf
    rcases buf with _ | ⟨x, _ | ⟨y, _ | ⟨z, _ | ⟨w, rest⟩⟩⟩⟩
    · simp at hlen
    · simp only [List.length_cons, List.length_nil] at hlen
      omega
    · simp only [List.length_cons, List.length_nil] at hlen
      omega
    · simp only [List.length_cons, List.length_nil] at hlen
      omega
    · have h0 : isOk (tr (wpApdu page [x, y, z, w])) := hok 0 (Nat.succ_pos k)
      rw [writePages_cons4_ok rest h0]
      have hlen2 : 4 * k < rest.length := by
        simp only [List.length_cons] at hlen
        omega
      have hok2 : ∀ j, j < k →
          isOk (tr (wpApdu (page + 1 + j) ((rest.drop (4 * j)).take 4))) := by
        intro j hj
        have h := hok (j + 1) (by omega)
        rw [drop_four] at h
        rw [show page + (j + 1) = page + 1 + j by omega] at h
        exact h
      have htr2 : tr (wpApdu (page + 1 + k) ((rest.drop (4 * k)).take 4)) = (resp, a, b) := by
        rw [drop_four] at htr
        rw [show page + (k + 1) = page + 1 + k by omega] at htr
        exact htr
      rw [ih rest (page + 1) resp a b hlen2 hok2 htr2 hf]
      have hmap : (List.range (k + 1)).map
            (fun j => Ev.apdu (wpApdu (page + 1 + j) ((rest.drop (4 * j)).take 4)))
          = (List.range (k + 1)).map
            (fun j => Ev.apdu (wpApdu (page + (j + 1))
              (((x :: y :: z :: w :: rest).drop (4 * (j + 1))).take 4))) := by
        apply map_range_congr
        intro j hj
        rw [drop_four, Nat.add_assoc, Nat.add_comm 1 j]
      rw [hmap]
      conv_rhs => rw [map_range_succ]
      rfl

theorem write_url_ok_trace (tr : Transport) (url : List Char) (htr : ∀ cmd, isOk (tr cmd)) :
    write_url tr url =
      (Ev.apdu uidApdu :: Ev.apdu (wpApdu 3 ccBytes) ::
        (List.range (((padTo4 (create_ndef_uri url)).length + 3) / 4)).map
          (fun j => Ev.apdu (wpApdu (NTAG216_USER_START_PAGE + j)
            (((padTo4 (create_ndef_uri url)).drop (4 * j)).take 4))),
       Except.ok ()) := by
  have hg : get_uid tr = ([Ev.apdu uidApdu], Except.ok (tr uidApdu).1) :=
    send_apdu_ok (htr uidApdu)
  rw [write_url, hg, write_page_ok (htr (wpApdu 3 ccBytes)),
    writePages_ok tr htr (padTo4 (create_ndef_uri url)).length (padTo4 (create_ndef_uri url))
      NTAG216_USER_START_PAGE (Nat.le_refl _)]
  rfl

set_option maxRecDepth 1000000 in
/-- C1: the code has no payload-size guard.  For a 255-character URL with
no abbreviation the encoded payload is 256 bytes; `create_ndef_uri` still
builds the record, storing 256 in the single payload-length byte position
(index 6 of the long-form TLV), and `write_url` performs the full sequence
of tag writes (69 exchanges) without raising any error. -/
theorem c1_oversize_no_guard :
    (uriBytes oversizeUrl).length = 256 ∧
    (create_ndef_uri oversizeUrl).getD 6 0 = 256 ∧
    (write_url okTransport oversizeUrl).2 = Except.ok () ∧
    (write_url okTransport oversizeUrl).1.length = 69 :=
  ⟨rfl, rfl, rfl, rfl⟩

/-- C6: on a padded TLV buffer the page writer issues exactly
`ceil(len / 4)` single-page write commands, at consecutive strictly
increasing pages starting at the fixed user-data start page 4, each
carrying the next 4 bytes of the buffer, with no gaps, reordering or
batching. -/
theorem c6_sequential_page_writes (tr : Transport) (buf : List Nat)
    (htr : ∀ cmd, isOk (tr cmd)) (hpad : buf.length % 4 = 0) :
    writePages tr buf NTAG216_USER_START_PAGE =
      ((List.range ((buf.length + 3) / 4)).map
        (fun j => Ev.apdu (wpApdu (NTAG216_USER_START_PAGE + j) ((buf.drop (4 * j)).take 4))),
       Except.ok ()) ∧
    ∀ j, j < (buf.length + 3) / 4 → ((buf.drop (4 * j)).take 4).length = 4 := by
  refine ⟨writePages_ok tr htr buf.length buf NTAG216_USER_START_PAGE (Nat.le_refl _), ?_⟩
  intro j hj
  rw [List.length_take, List.length_drop]
  omega

/-- C6 witness: the two sequential page writes of a concrete 8-byte
buffer. -/
theorem c6_sequential_page_writes_witness :
    writePages okTransport [1, 2, 3, 4, 5, 6, 7, 8] NTAG216_USER_START_PAGE =
      ((List.range ((([1, 2, 3, 4, 5, 6, 7, 8] : List Nat).length + 3) / 4)).map
        (fun j => Ev.apdu (wpApdu (NTAG216_USER_START_PAGE + j)
          ((([1, 2, 3, 4, 5, 6, 7, 8] : List Nat).drop (4 * j)).take 4))),
       Except.ok ()) ∧
    ∀ j, j < (([1, 2, 3, 4, 5, 6, 7, 8] : List Nat).length + 3) / 4 →
      ((([1, 2, 3, 4, 5, 6, 7, 8] : List Nat).drop (4 * j)).take 4).length = 4 :=
  c6_sequential_page_writes okTransport [1, 2, 3, 4, 5, 6, 7, 8]
    (fun _ => ⟨rfl, rfl⟩) rfl

/-- C9: every exchange whose status differs from 0x9000 fails with the
literal SW1/SW2 preserved in the error, and a page write returning a
non-success status stops the write loop at once: the trace contains
exactly the writes up to and including the failing one and the result
carries that exact status, with no retry. -/
theorem c9_status_failure_aborts :
    (∀ (tr : Transport) (cmd resp : List Nat) (s1 s2 : Nat), tr cmd = (resp, s1, s2) →
      (¬ (s1 = 0x90 ∧ s2 = 0x00) →
        send_apdu tr cmd = ([Ev.apdu cmd], Except.error (Err.apduFailed s1 s2))) ∧
      ((s1 = 0x90 ∧ s2 = 0x00) → send_apdu tr cmd = ([Ev.apdu cmd], Except.ok resp))) ∧
    (∀ (tr : Transport) (buf : List Nat) (page k : Nat) (resp : List Nat) (a b : Nat),
      4 * k < buf.length →
      (∀ j, j < k → isOk (tr (wpApdu (page + j) ((buf.drop (4 * j)).take 4)))) →
      tr (wpApdu (page + k) ((buf.drop (4 * k)).take 4)) = (resp, a, b) →
      ¬ (a = 0x90 ∧ b = 0x00) →
      writePages tr buf page =
        ((List.range (k + 1)).map
          (fun j => Ev.apdu (wpApdu (page + j) ((buf.drop (4 * j)).take 4))),
         Except.error (Err.apduFailed a b))) := by
  constructor
  · intro tr cmd resp s1 s2 htr
    constructor
    · intro hf
      exact send_apdu_err htr hf
    · intro hs
      obtain ⟨h1, h2⟩ := hs
      subst h1
      subst h2
      have hok : isOk (tr cmd) := by rw [htr]; exact ⟨rfl, rfl⟩
      rw [send_apdu_ok hok, htr]
  · intro tr buf page k resp a b hlen hok htr hf
    exact writePages_err tr k buf page resp a b hlen hok htr hf

/-- C9 witness: a transport failing exactly on the page-5 write aborts a
two-page session after the second command, carrying status 0x6300. -/
theorem c9_status_failure_aborts_witness :
    writePages (fun cmd => if cmd.getD 3 0 = 5 then ([], 0x63, 0x00) else ([], 0x90, 0x00))
        [1, 2, 3, 4, 5, 6, 7, 8] 4 =
      ((List.range (1 + 1)).map
        (fun j => Ev.apdu (wpApdu (4 + j)
          ((([1, 2, 3, 4, 5, 6, 7, 8] : List Nat).drop (4 * j)).take 4))),
       Except.error (Err.apduFailed 0x63 0x00)) :=
  c9_status_failure_aborts.2
    (fun cmd => if cmd.getD 3 0 = 5 then ([], 0x63, 0x00) else ([], 0x90, 0x00))
    [1, 2, 3, 4, 5, 6, 7, 8] 4 1 [] 0x63 0x00 (by decide)
    (by
      intro j hj
      have hj0 : j = 0 := by omega
      subst hj0
      exact ⟨rfl, rfl⟩)
    rfl (by decide)

/-- C10: under a transport where every exchange succeeds, the session
trace of `write_url` is the UID read followed by the capability-container
write of exactly `[0xE1, 0x10, 0x6D, 0x00]` to page 3 — the page directly
before the user-data start page 4 — followed by all user-data page writes
at pages 4, 5, ...; so the CC write is the first page write and strictly
precedes every data write. -/
theorem c10_capability_container_first (tr : Transport) (url : List Char)
    (htr : ∀ cmd, isOk (tr cmd)) :
    (write_url tr url).1 =
      Ev.apdu uidApdu ::
      Ev.apdu [0xFF, 0xD6, 0x00, 3, 0x04, 0xE1, 0x10, 0x6D, 0x00] ::
      (List.range (((padTo4 (create_ndef_uri url)).length + 3) / 4)).map
        (fun j => Ev.apdu (wpApdu (NTAG216_USER_START_PAGE + j)
          (((padTo4 (create_ndef_uri url)).drop (4 * j)).take 4))) ∧
    wpApdu 3 ccBytes = [0xFF, 0xD6, 0x00, 3, 0x04, 0xE1, 0x10, 0x6D, 0x00] ∧
    NTAG216_USER_START_PAGE = 3 + 1 := by
  refine ⟨?_, by decide, rfl⟩
  rw [write_url_ok_trace tr url htr]
  rfl

/-- C10 witness: the trace shape at the concrete input "x". -/
theorem c10_capability_container_first_witness :
    (write_url okTransport "x".toList).1 =
      Ev.apdu uidApdu ::
      Ev.apdu [0xFF, 0xD6, 0x00, 3, 0x04, 0xE1, 0x10, 0x6D, 0x00] ::
      (List.range (((padTo4 (create_ndef_uri "x".toList)).length + 3) / 4)).map
        (fun j => Ev.apdu (wpApdu (NTAG216_USER_START_PAGE + j)
          (((padTo4 (create_ndef_uri "x".toList)).drop (4 * j)).take 4))) ∧
    wpApdu 3 ccBytes = [0xFF, 0xD6, 0x00, 3, 0x04, 0xE1, 0x10, 0x6D, 0x00] ∧
    NTAG216_USER_START_PAGE = 3 + 1 :=
  c10_capability_container_first okTransport "x".toList (fun _ => ⟨rfl, rfl⟩)

theorem connectLoopAux_all_fail : ∀ (n i : Nat) (f : Nat → COut),
    (∀ j, j < n → f (i + j) ≠ COut.success) →
    connectLoopAux f i n = ((List.replicate n [Ev.connectAttempt, Ev.sleep1]).flatten, false) := by
  intro n
  induction n with
  | zero => intro i f _; rfl
  | succ n ih =>
    intro i f h
    have h0 : ¬ (f i = COut.success) := by
      have hh := h 0 (Nat.succ_pos n)
      simpa using hh
    have hrec := ih (i + 1) f (fun j hj => by
      have hh := h (j + 1) (by omega)
      rw [show i + (j + 1) = i + 1 + j by omega] at hh
      exact hh)
    rw [connectLoopAux, if_neg h0, hrec]
    rfl

theorem connectLoopAux_first_success : ∀ (n i k : Nat) (f : Nat → COut), k < n →
    (∀ j, j < k → f (i + j) ≠ COut.success) → f (i + k) = COut.success →
    connectLoopAux f i n
      = ((List.replicate k [Ev.connectAttempt, Ev.sleep1]).flatten ++ [Ev.connectAttempt],
         true) := by
  intro n
  induction n with
  | zero =>
    intro i k f hk h1 h2
    exact absurd hk (Nat.not_lt_zero k)
  | succ n ih =>
    intro i k f hk h1 h2
    cases k with
    | zero =>
      have hs : f i = COut.success := by simpa using h2
      rw [connectLoopAux, if_pos hs]
      rfl
    | succ k =>
      have h0 : ¬ (f i = COut.success) := by
        have hh := h1 0 (Nat.succ_pos k)
        simpa using hh
      have hrec := ih (i + 1) k f (by omega)
        (fun j hj => by
          have hh := h1 (j + 1) (by omega)
          rw [show i + (j + 1) = i + 1 + j by omega] at hh
          exact hh)
        (by
          have hh := h2
          rw [show i + (k + 1) = i + 1 + k by omega] at hh
          exact hh)
      rw [connectLoopAux, if_neg h0, hrec]
      rfl

theorem connectLoopAux_congr : ∀ (n i : Nat) (f g : Nat → COut),
    (∀ j, f j = COut.success ↔ g j = COut.success) →
    connectLoopAux f i n = connectLoopAux g i n := by
  intro n
  induction n with
  | zero => intro i f g _; rfl
  | succ n ih =>
    intro i f g h
    by_cases hs : f i = COut.success
    · have hg : g i = COut.success := (h i).mp hs
      rw [connectLoopAux, if_pos hs, connectLoopAux, if_pos hg]
    · have hg : ¬ (g i = COut.success) := fun hh => hs ((h i).mpr hh)
      rw [connectLoopAux, if_neg hs, connectLoopAux, if_neg hg, ih (i + 1) f g h]

/-- C7: when no card appears, the connection is attempted exactly 30 times
with a 1-second sleep after each failed attempt; the run fails with the
card-timeout error and the disconnect path still executes exactly once. -/
theorem c7_card_timeout (f : Nat → COut) (tr : Transport) (url : List Char)
    (h : ∀ i, i < 30 → f i ≠ COut.success) :
    mainRun true f tr url =
      ((List.replicate 30 [Ev.connectAttempt, Ev.sleep1]).flatten ++ [Ev.disconnectCall],
       Except.error Err.cardTimeout) ∧
    (mainRun true f tr url).1.count Ev.connectAttempt = 30 ∧
    (mainRun true f tr url).1.count Ev.disconnectCall = 1 := by
  have hc : connectLoop f
      = ((List.replicate 30 [Ev.connectAttempt, Ev.sleep1]).flatten, false) :=
    connectLoopAux_all_fail 30 0 f (fun j hj => by simpa using h j hj)
  have hm : mainRun true f tr url =
      ((List.replicate 30 [Ev.connectAttempt, Ev.sleep1]).flatten ++ [Ev.disconnectCall],
       Except.error Err.cardTimeout) := by
    rw [mainRun, hc]
    rfl
  refine ⟨hm, ?_, ?_⟩
  · rw [hm]
    decide
  · rw [hm]
    decide

/-- C7 witness: the timeout trace when the card never appears. -/
theorem c7_card_timeout_witness :
    mainRun true (fun _ => COut.noCard) okTransport [] =
      ((List.replicate 30 [Ev.connectAttempt, Ev.sleep1]).flatten ++ [Ev.disconnectCall],
       Except.error Err.cardTimeout) ∧
    (mainRun true (fun _ => COut.noCard) okTransport []).1.count Ev.connectAttempt = 30 ∧
    (mainRun true (fun _ => COut.noCard) okTransport []).1.count Ev.disconnectCall = 1 :=
  c7_card_timeout (fun _ => COut.noCard) okTransport [] (fun _ _ h => COut.noConfusion h)

/-- C8 counterexample: the claim fails as stated.  The bare `except:` in
the retry loop catches every connection error: an attempt failing with an
error other than no-card is retried like any other, so the session goes on
to connect on the next attempt (2 attempts consumed) and the whole write
succeeds, instead of aborting at once. -/
theorem c8_retry_kind_counterexample :
    (mainRun true (fun n => if n = 0 then COut.otherError else COut.success)
        okTransport "x".toList).1.count Ev.connectAttempt = 2 ∧
    (mainRun true (fun n => if n = 0 then COut.otherError else COut.success)
        okTransport "x".toList).2 = Except.ok () := by
  constructor
  · decide
  · rfl

/-- C8 (amended): during the card-connection phase every failed attempt is
retried alike, whatever the kind of connection error: the run depends only
on which attempts succeed, and when the first success is attempt `k` (of
the 30 allowed) the loop has consumed exactly `k` failed attempts plus the
successful one. -/
theorem c8_all_errors_retried :
    (∀ f g : Nat → COut, (∀ i, f i = COut.success ↔ g i = COut.success) →
      ∀ (tr : Transport) (url : List Char), mainRun true f tr url = mainRun true g tr url) ∧
    (∀ (f : Nat → COut) (k : Nat), k < 30 → (∀ j, j < k → f j ≠ COut.success) →
      f k = COut.success →
      connectLoop f
        = ((List.replicate k [Ev.connectAttempt, Ev.sleep1]).flatten ++ [Ev.connectAttempt],
           true)) := by
  constructor
  · intro f g h tr url
    rw [mainRun, mainRun, connectLoop, connectLoop, connectLoopAux_congr 30 0 f g h]
  · intro f k hk h1 h2
    exact connectLoopAux_first_success 30 0 k f hk (fun j hj => by simpa using h1 j hj)
      (by simpa using h2)

/-- C8 witness: a no-card failure and an other-error failure on attempt 0
produce identical runs, and the loop connects on attempt 1 after one
retried failure. -/
theorem c8_all_errors_retried_witness :
    mainRun true (fun n => if n = 0 then COut.noCard else COut.success) okTransport []
      = mainRun true (fun n => if n = 0 then COut.otherError else COut.success)
          okTransport [] ∧
    connectLoop (fun n => if n = 0 then COut.noCard else COut.success)
      = ((List.replicate 1 [Ev.connectAttempt, Ev.sleep1]).flatten ++ [Ev.connectAttempt],
         true) :=
  ⟨c8_all_errors_retried.1 _ _ (fun i => by by_cases h : i = 0 <;> simp [h]) okTransport [],
   c8_all_errors_retried.2 _ 1 (by omega)
     (fun j hj => by
       have hj0 : j = 0 := by omega
       subst hj0
       decide)
     (by decide)⟩
